import Mathlib

/-!
Shallow embedding of the KOReader calibre plugin configuration panel
(`config.py`): the field registry `COLUMNS`, the per-type filtering of the
host's custom columns (`get_custom_columns`, `get_rating_columns`), the
selection-control population logic (`CustomColumnComboBox.populate_combo`,
`get_selected_column`), the persistence step (`ConfigWidget.save_settings`),
and the per-field value transforms.

Python dictionaries are modelled as association lists with unique keys
(`Dict`), with `dictInsert` modelling `d[k] = v` (replace in place or append)
and `dictGet` modelling lookup. Numeric sidecar values are modelled as `ℚ`,
JSON documents as the inductive `Json`. Fallible operations (list indexing in
`get_selected_column`) return `Option`.
-/

/-- A Python dict with string keys, as an association list in insertion
order. Real dicts never hold duplicate keys; theorems that need this carry a
`Nodup` hypothesis on `dictKeys`. -/
abbrev Dict (α : Type) := List (String × α)

/-- Model of Python `d[k] = v`: replace the value in place if `k` is
present, otherwise append the binding at the end. -/
def dictInsert {α : Type} (k : String) (v : α) : Dict α → Dict α
  | [] => [(k, v)]
  | (k1, v1) :: rest =>
      if k1 = k then (k1, v) :: rest else (k1, v1) :: dictInsert k v rest

/-- Model of Python `d[k]` lookup (first binding wins; on a real dict keys
are unique so this is the binding). -/
def dictGet {α : Type} (d : Dict α) (k : String) : Option α :=
  match d with
  | [] => none
  | (k1, v1) :: rest => if k1 = k then some v1 else dictGet rest k

/-- Model of Python `d.keys()` in insertion order. -/
def dictKeys {α : Type} (d : Dict α) : List String := d.map Prod.fst

/-- One entry of calibre's `library_view.model().custom_columns` registry:
the fields of the column dict that `config.py` reads (`datatype`,
`is_multiple`, `name`). -/
structure CustomColumn where
  datatype : String
  is_multiple : Bool
  name : String
deriving DecidableEq, Repr

/-- A value stored in an available-columns dict handed to
`CustomColumnComboBox`. Custom columns carry the full column dict; the
synthesized built-in rating entry is the dict `\x7b'name': ...\x7d` built in
`get_rating_columns`, which only has a display name. -/
inductive ColEntry where
  | custom (c : CustomColumn)
  | builtinRating (display : String)
deriving DecidableEq, Repr

/-- The `['name']` field read by `populate_combo` on either kind of entry. -/
def ColEntry.name : ColEntry → String
  | .custom c => c.name
  | .builtinRating display => display

/-- The eligibility test of `CustomColumnsLayout.get_custom_columns`:
`type_ in column_types and not column['is_multiple']`. -/
def eligible (column_types : List String) (column : CustomColumn) : Bool :=
  column_types.contains column.datatype && !column.is_multiple

/-- `CustomColumnsLayout.get_custom_columns`: iterate the host's custom
columns and keep those whose datatype is among `column_types` and which are
not multi-valued, building a fresh dict. -/
def get_custom_columns (custom_columns : Dict CustomColumn)
    (column_types : List String) : Dict CustomColumn :=
  custom_columns.foldl
    (fun available kv =>
      if eligible column_types kv.2 then dictInsert kv.1 kv.2 available
      else available)
    []

/-- Wrap the result of `get_custom_columns` as combo-box entries. -/
def toEntries (d : Dict CustomColumn) : Dict ColEntry :=
  d.map (fun kv => (kv.1, ColEntry.custom kv.2))

/-- `CustomColumnsLayout.get_rating_columns`: the custom rating columns,
then `rating_columns['rating'] = \x7b'name': rating_column_name\x7d` for the
host's built-in rating column. -/
def get_rating_columns (custom_columns : Dict CustomColumn)
    (rating_column_name : String) : Dict ColEntry :=
  dictInsert "rating" (ColEntry.builtinRating rating_column_name)
    (toEntries (get_custom_columns custom_columns ["rating"]))

/-- Lexicographic code-point comparison of character lists; this is how
Python's `sorted` orders `str` keys. -/
def charsLe : List Char → List Char → Bool
  | [], _ => true
  | _ :: _, [] => false
  | a :: as, b :: bs =>
      if a.toNat < b.toNat then true
      else if b.toNat < a.toNat then false
      else charsLe as bs

/-- Python's `<=` on strings: code-point lexicographic order. -/
def strLe (a b : String) : Bool := charsLe a.data b.data

/-- Key order used by `sorted(custom_columns.keys())`, lifted to the dict's
key-value pairs. -/
def keyLe (a b : String × ColEntry) : Prop := strLe a.1 b.1 = true

instance : DecidableRel keyLe := fun a b =>
  inferInstanceAs (Decidable (strLe a.1 b.1 = true))

/-- The pairs of the dict in ascending key order: since dict keys are
unique, iterating `sorted(custom_columns.keys())` and indexing the dict is
iterating the pairs sorted by key. -/
def sortPairs (custom_columns : Dict ColEntry) : Dict ColEntry :=
  List.insertionSort keyLe custom_columns

/-- State of a `CustomColumnComboBox`: the displayed item list, the parallel
internal key list `column_names`, and the current index. -/
structure ComboState where
  items : List String
  column_names : List String
  currentIndex : Nat
deriving DecidableEq, Repr

/-- The display text built in `populate_combo`:
`'\x7b\x7d (\x7b\x7d)'.format(custom_columns[key]['name'], key)`. -/
def display_name (key : String) (col : ColEntry) : String :=
  col.name ++ " (" ++ key ++ ")"

/-- One iteration of the `for key in sorted(custom_columns.keys())` loop of
`populate_combo`: append the key to `column_names`, append the display text
as a new item, and record the selection index when the key equals the
persisted `selected_column`. -/
def populate_step (selected_column : String) (st : ComboState)
    (kv : String × ColEntry) : ComboState :=
  let column_names := st.column_names ++ [kv.1]
  { items := st.items ++ [display_name kv.1 kv.2]
    column_names := column_names
    currentIndex :=
      if kv.1 = selected_column then column_names.length - 1
      else st.currentIndex }

/-- The loop of `populate_combo` over an explicit pair list. -/
def populate_fold (selected_column : String) (l : List (String × ColEntry))
    (st : ComboState) : ComboState :=
  l.foldl (populate_step selected_column) st

/-- `CustomColumnComboBox.populate_combo`: clear, seed with the
`'do not sync'` item at internal key `''` and index 0, then add one option
per available column in ascending key order, selecting the option whose key
equals `selected_column` (index 0 if none matches). -/
def populate_combo (custom_columns : Dict ColEntry)
    (selected_column : String) : ComboState :=
  populate_fold selected_column (sortPairs custom_columns)
    { items := ["do not sync"], column_names := [""], currentIndex := 0 }

/-- Model of `QComboBox.setCurrentIndex`: the user picking a different
option. -/
def setCurrentIndex (st : ComboState) (i : Nat) : ComboState :=
  { st with currentIndex := i }

/-- `CustomColumnComboBox.get_selected_column`:
`self.column_names[self.currentIndex()]`; list indexing is fallible, so the
model returns `Option`. -/
def get_selected_column (st : ComboState) : Option String :=
  st.column_names[st.currentIndex]?

/-- One entry of the `COLUMNS` field registry: the data the persistence and
combo wiring reads (`name`, `label`, `type`, `sidecar_property`). Transforms
are heterogeneous Python lambdas and are modelled as the standalone
functions `column_*_transform` below. -/
structure FieldDescriptor where
  name : String
  label : String
  type : String
  sidecar_property : List String
deriving DecidableEq, Repr

/-- The `COLUMNS` registry of `config.py` (the `column_highlights` entry is
commented out in the source and hence absent). -/
def COLUMNS : List FieldDescriptor := [
  { name := "column_percent_read"
    label := "Percent read column (float):"
    type := "float"
    sidecar_property := ["percent_finished"] },
  { name := "column_percent_read_int"
    label := "Percent read column (int):"
    type := "int"
    sidecar_property := ["percent_finished"] },
  { name := "column_last_read_location"
    label := "Last read location column:"
    type := "text"
    sidecar_property := ["last_xpointer"] },
  { name := "column_rating"
    label := "Rating column:"
    type := "rating"
    sidecar_property := ["summary", "rating"] },
  { name := "column_review"
    label := "Review column:"
    type := "comments"
    sidecar_property := ["summary", "note"] },
  { name := "column_status"
    label := "Reading status column:"
    type := "text"
    sidecar_property := ["summary", "status"] },
  { name := "column_date_status_modified"
    label := "Status modified date column:"
    type := "datetime"
    sidecar_property := ["summary", "modified"] },
  { name := "column_bookmarks"
    label := "Bookmarks column"
    type := "comments"
    sidecar_property := ["bookmarks"] },
  { name := "column_md5"
    label := "MD5 hash column:"
    type := "text"
    sidecar_property := ["partial_md5_checksum"] },
  { name := "column_sidecar"
    label := "Raw sidecar column:"
    type := "comments"
    sidecar_property := [] }]

/-- The loop of `ConfigWidget.save_settings` over an explicit field list:
`CONFIG[column['name']] = column['combo'].get_selected_column()` for each
field, propagating the failure of a combo read. -/
def save_loop (fs : List FieldDescriptor) (combo_of : FieldDescriptor → ComboState)
    (config : Dict String) : Option (Dict String) :=
  match fs with
  | [] => some config
  | f :: rest =>
      match get_selected_column (combo_of f) with
      | none => none
      | some v => save_loop rest combo_of (dictInsert f.name v config)

/-- `ConfigWidget.save_settings`: write every registry field's selected key
into the config. -/
def save_settings (combo_of : FieldDescriptor → ComboState)
    (config : Dict String) : Option (Dict String) :=
  save_loop COLUMNS combo_of config

/-- Transform of `column_percent_read`: `lambda value: float(value)`,
modelled over `ℚ`. -/
def column_percent_read_transform (value : ℚ) : ℚ := value

/-- Transform of `column_percent_read_int`:
`lambda value: math.floor(float(value) * 100)`, modelled over `ℚ`. -/
def column_percent_read_int_transform (value : ℚ) : ℤ := ⌊value * 100⌋

/-- Transform of `column_rating`: `lambda value: value * 2` (calibre uses a
10-point scale), modelled over `ℚ`. -/
def column_rating_transform (value : ℚ) : ℚ := value * 2

/-- JSON documents, as the sidecar dict handed to the raw-sidecar
transform. -/
inductive Json where
  | null
  | boolean (b : Bool)
  | int (n : Int)
  | str (s : String)
  | arr (elems : List Json)
  | obj (members : List (String × Json))
deriving Repr

/-- The `indent * level` whitespace written by Python's JSON encoder with
`indent=2`. -/
def json_indent (level : Nat) : String :=
  String.mk (List.replicate (2 * level) ' ')

/-- One lowercase hex digit, as in Python's `\u` escapes. -/
def json_hex_digit (n : Nat) : Char :=
  if n < 10 then Char.ofNat (48 + n) else Char.ofNat (97 + n - 10)

/-- Four lowercase hex digits. -/
def json_hex4 (n : Nat) : String :=
  String.mk [json_hex_digit (n / 4096 % 16), json_hex_digit (n / 256 % 16),
    json_hex_digit (n / 16 % 16), json_hex_digit (n % 16)]

/-- Escaping of one character by Python's JSON encoder with the default
`ensure_ascii=True`: shorthand escapes for the common control characters,
`\u` escapes (surrogate pairs beyond the BMP) for all other characters
outside printable ASCII, everything else literal. -/
def json_escape_char (c : Char) : String :=
  if c = '\\' then "\\\\"
  else if c = '"' then "\\\""
  else if c = '\n' then "\\n"
  else if c = '\r' then "\\r"
  else if c = '\t' then "\\t"
  else if c.toNat = 8 then "\\b"
  else if c.toNat = 12 then "\\f"
  else if c.toNat < 32 ∨ 126 < c.toNat then
    if c.toNat < 65536 then "\\u" ++ json_hex4 c.toNat
    else "\\u" ++ json_hex4 (55296 + (c.toNat - 65536) / 1024)
      ++ "\\u" ++ json_hex4 (56320 + (c.toNat - 65536) % 1024)
  else String.singleton c

/-- Python's JSON string encoder (`ensure_ascii=True`). -/
def json_encode_string (s : String) : String :=
  "\"" ++ String.join (s.data.map json_escape_char) ++ "\""

mutual

/-- `json.dumps(value, indent=2)` at nesting depth `level`: items one per
line, indented two spaces per level, separators `','` and `': '`. -/
def json_dumps_value (level : Nat) : Json → String
  | .null => "null"
  | .boolean b => if b then "true" else "false"
  | .int n => toString n
  | .str s => json_encode_string s
  | .arr [] => "[]"
  | .arr (x :: xs) =>
      "[\n" ++ json_indent (level + 1)
        ++ json_dumps_arr_items (level + 1) (x :: xs)
        ++ "\n" ++ json_indent level ++ "]"
  | .obj [] => "\x7b\x7d"
  | .obj (m :: ms) =>
      "\x7b\n" ++ json_indent (level + 1)
        ++ json_dumps_obj_items (level + 1) (m :: ms)
        ++ "\n" ++ json_indent level ++ "\x7d"

/-- The comma-and-newline separated items of a JSON array. -/
def json_dumps_arr_items (level : Nat) : List Json → String
  | [] => ""
  | [x] => json_dumps_value level x
  | x :: y :: ys =>
      json_dumps_value level x ++ ",\n" ++ json_indent level
        ++ json_dumps_arr_items level (y :: ys)

/-- The comma-and-newline separated members of a JSON object. -/
def json_dumps_obj_items (level : Nat) : List (String × Json) → String
  | [] => ""
  | [(k, v)] => json_encode_string k ++ ": " ++ json_dumps_value level v
  | (k, v) :: n :: ns =>
      json_encode_string k ++ ": " ++ json_dumps_value level v
        ++ ",\n" ++ json_indent level ++ json_dumps_obj_items level (n :: ns)

end

/-- `json.dumps(value, indent=2)` on a whole document. -/
def json_dumps_indent2 (value : Json) : String := json_dumps_value 0 value

/-- Transform of `column_sidecar`:
`lambda value: json.dumps(value, indent=2)`. -/
def column_sidecar_transform (value : Json) : String :=
  json_dumps_indent2 value

/-! ### Dictionary lemmas -/

theorem dictGet_dictInsert_same {α : Type} (k : String) (v : α) :
    ∀ d : Dict α, dictGet (dictInsert k v d) k = some v
  | [] => by simp [dictInsert, dictGet]
  | (k1, v1) :: rest => by
      by_cases h : k1 = k
      · simp [dictInsert, dictGet, h]
      · simp [dictInsert, dictGet, h, dictGet_dictInsert_same k v rest]

theorem dictGet_dictInsert_ne {α : Type} (k k1 : String) (v : α)
    (hne : k1 ≠ k) :
    ∀ d : Dict α, dictGet (dictInsert k v d) k1 = dictGet d k1
  | [] => by
      have h2 : ¬ k = k1 := fun hh => hne hh.symm
      simp [dictInsert, dictGet, h2]
  | (k2, v2) :: rest => by
      by_cases h : k2 = k
      · subst h
        have h2 : ¬ k2 = k1 := fun hh => hne hh.symm
        simp [dictInsert, dictGet, h2]
      · simp only [dictInsert, if_neg h]
        by_cases h1 : k2 = k1
        · simp [dictGet, h1]
        · simp [dictGet, h1, dictGet_dictInsert_ne k k1 v hne rest]

theorem dictInsert_of_not_mem {α : Type} (k : String) (v : α) :
    ∀ d : Dict α, k ∉ dictKeys d → dictInsert k v d = d ++ [(k, v)]
  | [] => by simp [dictInsert]
  | (k1, v1) :: rest => by
      intro h
      simp only [dictKeys, List.map_cons, List.mem_cons] at h
      push_neg at h
      have h2 : ¬ k1 = k := fun hh => h.1 hh.symm
      simp [dictInsert, h2, dictInsert_of_not_mem k v rest h.2]

theorem dictKeys_dictInsert {α : Type} (k : String) (v : α) :
    ∀ d : Dict α, dictKeys (dictInsert k v d) =
      if k ∈ dictKeys d then dictKeys d else dictKeys d ++ [k]
  | [] => by simp [dictInsert, dictKeys]
  | (k1, v1) :: rest => by
      by_cases h : k1 = k
      · subst h
        simp [dictInsert, dictKeys]
      · have hne : ¬ k = k1 := fun hh => h hh.symm
        have ih := dictKeys_dictInsert k v rest
        simp only [dictKeys] at ih ⊢
        simp only [dictInsert, if_neg h, List.map_cons, List.mem_cons,
          hne, false_or, ih]
        by_cases hm : k ∈ List.map Prod.fst rest <;> simp [hm]

theorem mem_dictKeys_dictInsert {α : Type} (k : String) (v : α)
    (d : Dict α) : k ∈ dictKeys (dictInsert k v d) := by
  rw [dictKeys_dictInsert]
  by_cases h : k ∈ dictKeys d <;> simp [h]

theorem nodup_dictKeys_dictInsert {α : Type} (k : String) (v : α)
    (d : Dict α) (h : (dictKeys d).Nodup) :
    (dictKeys (dictInsert k v d)).Nodup := by
  rw [dictKeys_dictInsert]
  by_cases hm : k ∈ dictKeys d
  · simpa [hm]
  · simp only [hm, if_false]
    rw [List.nodup_append]
    exact ⟨h, List.nodup_singleton k, by simpa [List.disjoint_right] using hm⟩

/-! ### Lemmas about the key order and sorting -/

theorem charsLe_total : ∀ a b : List Char,
    charsLe a b = true ∨ charsLe b a = true
  | [], _ => Or.inl rfl
  | _ :: _, [] => Or.inr rfl
  | a :: as, b :: bs => by
      rcases Nat.lt_trichotomy a.toNat b.toNat with h | h | h
      · left; simp [charsLe, h]
      · have h1 : ¬ a.toNat < b.toNat := by omega
        have h2 : ¬ b.toNat < a.toNat := by omega
        rcases charsLe_total as bs with ih | ih
        · left; simp [charsLe, h1, h2, ih]
        · right; simp [charsLe, h1, h2, ih]
      · right; simp [charsLe, h]

theorem charsLe_trans : ∀ a b c : List Char,
    charsLe a b = true → charsLe b c = true → charsLe a c = true
  | [], _, _, _, _ => rfl
  | _ :: _, [], _, h1, _ => by simp [charsLe] at h1
  | _ :: _, _ :: _, [], _, h2 => by simp [charsLe] at h2
  | a :: as, b :: bs, c :: cs, h1, h2 => by
      simp only [charsLe] at h1 h2 ⊢
      by_cases hab : a.toNat < b.toNat <;>
        by_cases hbc : b.toNat < c.toNat <;>
        simp only [hab, hbc, if_true, if_false] at h1 h2
      · simp [show a.toNat < c.toNat by omega]
      · by_cases hcb : c.toNat < b.toNat
        · simp [hcb] at h2
        · have : b.toNat = c.toNat := by omega
          simp [show a.toNat < c.toNat by omega]
      · by_cases hba : b.toNat < a.toNat
        · simp [hba] at h1
        · have : a.toNat = b.toNat := by omega
          simp [show a.toNat < c.toNat by omega]
      · by_cases hba : b.toNat < a.toNat
        · simp [hba] at h1
        · by_cases hcb : c.toNat < b.toNat
          · simp [hcb] at h2
          · simp only [if_neg hba] at h1
            simp only [if_neg hcb] at h2
            have hac : ¬ a.toNat < c.toNat := by omega
            have hca : ¬ c.toNat < a.toNat := by omega
            simp only [hac, hca, if_false]
            exact charsLe_trans as bs cs h1 h2

instance : IsTotal (String × ColEntry) keyLe :=
  ⟨fun a b => charsLe_total a.1.data b.1.data⟩

instance : IsTrans (String × ColEntry) keyLe :=
  ⟨fun a b c => charsLe_trans a.1.data b.1.data c.1.data⟩

theorem sortPairs_perm (d : Dict ColEntry) : (sortPairs d).Perm d :=
  List.perm_insertionSort keyLe d

theorem sortPairs_sorted (d : Dict ColEntry) :
    List.Sorted keyLe (sortPairs d) :=
  List.sorted_insertionSort keyLe d

theorem sortPairs_keys_perm (d : Dict ColEntry) :
    (dictKeys (sortPairs d)).Perm (dictKeys d) :=
  (sortPairs_perm d).map Prod.fst

theorem sortPairs_keys_nodup (d : Dict ColEntry)
    (h : (dictKeys d).Nodup) : (dictKeys (sortPairs d)).Nodup :=
  ((sortPairs_keys_perm d).nodup_iff).mpr h

theorem sortPairs_keys_sorted (d : Dict ColEntry) :
    List.Sorted (fun a b => strLe a b = true) (dictKeys (sortPairs d)) := by
  have h := sortPairs_sorted d
  unfold List.Sorted at h ⊢
  rw [dictKeys, List.pairwise_map]
  exact h

/-! ### Lemmas about the combo-box population loop -/

theorem populate_fold_nil (s : String) (st : ComboState) :
    populate_fold s [] st = st := rfl

theorem populate_fold_cons (s : String) (kv : String × ColEntry)
    (rest : List (String × ColEntry)) (st : ComboState) :
    populate_fold s (kv :: rest) st =
      populate_fold s rest (populate_step s st kv) := rfl

theorem populate_step_items (s : String) (st : ComboState)
    (kv : String × ColEntry) :
    (populate_step s st kv).items = st.items ++ [display_name kv.1 kv.2] :=
  rfl

theorem populate_step_column_names (s : String) (st : ComboState)
    (kv : String × ColEntry) :
    (populate_step s st kv).column_names = st.column_names ++ [kv.1] := rfl

theorem populate_fold_column_names (s : String) :
    ∀ (l : List (String × ColEntry)) (st : ComboState),
      (populate_fold s l st).column_names = st.column_names ++ dictKeys l
  | [], st => by simp [populate_fold_nil, dictKeys]
  | kv :: rest, st => by
      rw [populate_fold_cons, populate_fold_column_names s rest,
        populate_step_column_names]
      simp [dictKeys]

theorem populate_fold_items (s : String) :
    ∀ (l : List (String × ColEntry)) (st : ComboState),
      (populate_fold s l st).items =
        st.items ++ l.map (fun kv => display_name kv.1 kv.2)
  | [], st => by simp [populate_fold_nil]
  | kv :: rest, st => by
      rw [populate_fold_cons, populate_fold_items s rest,
        populate_step_items]
      simp

theorem populate_fold_currentIndex_of_not_mem (s : String) :
    ∀ (l : List (String × ColEntry)) (st : ComboState),
      (∀ kv ∈ l, kv.1 ≠ s) →
      (populate_fold s l st).currentIndex = st.currentIndex
  | [], _, _ => rfl
  | kv :: rest, st, h => by
      rw [populate_fold_cons,
        populate_fold_currentIndex_of_not_mem s rest _
          (fun x hx => h x (List.mem_cons_of_mem kv hx))]
      simp [populate_step, h kv (List.mem_cons_self kv rest)]

theorem populate_fold_currentIndex_lt (s : String) :
    ∀ (l : List (String × ColEntry)) (st : ComboState),
      st.currentIndex < st.column_names.length →
      (populate_fold s l st).currentIndex <
        (populate_fold s l st).column_names.length
  | [], _, h => h
  | kv :: rest, st, h => by
      rw [populate_fold_cons]
      apply populate_fold_currentIndex_lt s rest
      by_cases hk : kv.1 = s
      · simp [populate_step, hk, List.length_append]
      · simp only [populate_step, hk, if_false, List.length_append]
        omega

theorem populate_fold_select (K : String) :
    ∀ (l : List (String × ColEntry)) (st : ComboState),
      (dictKeys l).Nodup → K ∈ dictKeys l →
      (populate_fold K l st).column_names[
        (populate_fold K l st).currentIndex]? = some K
  | [], _, _, hm => by simp [dictKeys] at hm
  | (k, c) :: rest, st, hnd, hm => by
      simp only [dictKeys, List.map_cons, List.nodup_cons] at hnd
      by_cases hk : k = K
      · subst hk
        rw [populate_fold_cons]
        have hni : ∀ kv ∈ rest, kv.1 ≠ k := by
          intro kv hkv he
          exact hnd.1 (he ▸ List.mem_map_of_mem Prod.fst hkv)
        rw [populate_fold_currentIndex_of_not_mem k rest _ hni,
          populate_fold_column_names]
        have hcn : (populate_step k st (k, c)).column_names =
            st.column_names ++ [k] := populate_step_column_names k st (k, c)
        have hidx : (populate_step k st (k, c)).currentIndex =
            st.column_names.length := by
          simp [populate_step]
        rw [hcn, hidx, List.append_assoc,
          List.getElem?_append_right (Nat.le_refl _)]
        simp
      · rw [populate_fold_cons]
        apply populate_fold_select K rest _ hnd.2
        simp only [dictKeys, List.map_cons, List.mem_cons] at hm
        rcases hm with hm | hm
        · exact absurd hm.symm hk
        · exact hm

theorem display_name_ne_do_not_sync (key : String) (col : ColEntry) :
    display_name key col ≠ "do not sync" := by
  intro h
  have hd : (display_name key col).data = "do not sync".data :=
    congrArg String.data h
  have h1 : (display_name key col).data =
      (col.name ++ " (" ++ key).data ++ [')'] := rfl
  rw [h1] at hd
  have h2 := congrArg List.getLast? hd
  rw [List.getLast?_append] at h2
  have h3 : (List.getLast? [')']).or
      ((col.name ++ " (" ++ key).data).getLast? = some ')' := rfl
  rw [h3] at h2
  have h4 : ("do not sync".data).getLast? = some 'c' := by decide
  rw [h4] at h2
  have h5 : ')' = 'c' := Option.some.inj h2
  exact absurd h5 (by decide)

/-! ### Lemmas about column filtering and the save loop -/

theorem get_custom_columns_fold (column_types : List String) :
    ∀ (l acc : Dict CustomColumn),
      (dictKeys l).Nodup → (∀ k ∈ dictKeys l, k ∉ dictKeys acc) →
      l.foldl
          (fun available kv =>
            if eligible column_types kv.2 then dictInsert kv.1 kv.2 available
            else available)
          acc =
        acc ++ l.filter (fun kv => eligible column_types kv.2)
  | [], acc, _, _ => by simp
  | (k, c) :: rest, acc, hnd, hdisj => by
      simp only [dictKeys, List.map_cons, List.nodup_cons] at hnd
      simp only [List.foldl_cons]
      by_cases he : eligible column_types c = true
      · rw [if_pos he]
        have hkacc : k ∉ dictKeys acc := hdisj k (by simp [dictKeys])
        rw [dictInsert_of_not_mem k c acc hkacc]
        have hdisj2 : ∀ k1 ∈ dictKeys rest, k1 ∉ dictKeys (acc ++ [(k, c)]) := by
          intro k1 hk1
          have hk1l : k1 ∈ dictKeys ((k, c) :: rest) := by
            simp only [dictKeys, List.map_cons, List.mem_cons]
            exact Or.inr hk1
          have hne : k1 ≠ k := fun hh => hnd.1 (hh ▸ hk1)
          simp only [dictKeys, List.map_append, List.map_cons, List.map_nil,
            List.mem_append, List.mem_cons, List.not_mem_nil, or_false]
          push_neg
          exact ⟨hdisj k1 hk1l, hne⟩
        rw [get_custom_columns_fold column_types rest (acc ++ [(k, c)])
          hnd.2 hdisj2]
        simp [List.filter_cons, he, List.append_assoc]
      · rw [if_neg he]
        have hdisj2 : ∀ k1 ∈ dictKeys rest, k1 ∉ dictKeys acc := by
          intro k1 hk1
          refine hdisj k1 ?_
          simp only [dictKeys, List.map_cons, List.mem_cons]
          exact Or.inr hk1
        rw [get_custom_columns_fold column_types rest acc hnd.2 hdisj2]
        simp [List.filter_cons, he]

theorem get_custom_columns_eq_filter (cc : Dict CustomColumn)
    (column_types : List String) (h : (dictKeys cc).Nodup) :
    get_custom_columns cc column_types =
      cc.filter (fun kv => eligible column_types kv.2) := by
  have hh := get_custom_columns_fold column_types cc [] h (by simp [dictKeys])
  simpa [get_custom_columns] using hh

theorem get_custom_columns_fold_keys_nodup (column_types : List String) :
    ∀ (l acc : Dict CustomColumn), (dictKeys acc).Nodup →
      (dictKeys
        (l.foldl
          (fun available kv =>
            if eligible column_types kv.2 then dictInsert kv.1 kv.2 available
            else available)
          acc)).Nodup
  | [], _, h => h
  | (k, c) :: rest, acc, h => by
      simp only [List.foldl_cons]
      by_cases he : eligible column_types c = true
      · rw [if_pos he]
        exact get_custom_columns_fold_keys_nodup column_types rest _
          (nodup_dictKeys_dictInsert k c acc h)
      · rw [if_neg he]
        exact get_custom_columns_fold_keys_nodup column_types rest acc h

theorem get_custom_columns_keys_nodup (cc : Dict CustomColumn)
    (column_types : List String) :
    (dictKeys (get_custom_columns cc column_types)).Nodup :=
  get_custom_columns_fold_keys_nodup column_types cc [] List.nodup_nil

theorem dictKeys_toEntries : ∀ d : Dict CustomColumn,
    dictKeys (toEntries d) = dictKeys d
  | [] => rfl
  | kv :: rest => by
      have ih := dictKeys_toEntries rest
      simp only [toEntries, dictKeys, List.map_cons] at ih ⊢
      rw [ih]

theorem dictGet_toEntries (k : String) : ∀ d : Dict CustomColumn,
    dictGet (toEntries d) k = (dictGet d k).map ColEntry.custom
  | [] => rfl
  | (k1, v1) :: rest => by
      have ih := dictGet_toEntries k rest
      by_cases h : k1 = k
      · simp [toEntries, dictGet, h]
      · simp only [toEntries, List.map_cons] at ih ⊢
        simp [dictGet, h, ih]

theorem dict_mem_unique {α : Type} : ∀ (d : Dict α), (dictKeys d).Nodup →
    ∀ (k : String) (v1 v2 : α), (k, v1) ∈ d → (k, v2) ∈ d → v1 = v2
  | [], _, _, _, _, h1, _ => absurd h1 (List.not_mem_nil _)
  | (k0, w) :: rest, hnd, k, v1, v2, h1, h2 => by
      simp only [dictKeys, List.map_cons, List.nodup_cons] at hnd
      rcases List.mem_cons.mp h1 with he1 | h1 <;>
        rcases List.mem_cons.mp h2 with he2 | h2
      · injection he1 with hk1 hv1
        injection he2 with hk2 hv2
        rw [hv1, hv2]
      · exfalso
        injection he1 with hk1 hv1
        exact hnd.1 (hk1 ▸ List.mem_map_of_mem Prod.fst h2)
      · exfalso
        injection he2 with hk2 hv2
        exact hnd.1 (hk2 ▸ List.mem_map_of_mem Prod.fst h1)
      · exact dict_mem_unique rest hnd.2 k v1 v2 h1 h2

theorem save_loop_spec :
    ∀ (fs : List FieldDescriptor) (combo_of : FieldDescriptor → ComboState)
      (config : Dict String),
      (fs.map FieldDescriptor.name).Nodup →
      (∀ f ∈ fs, (get_selected_column (combo_of f)).isSome = true) →
      ∃ cfg1, save_loop fs combo_of config = some cfg1 ∧
        (∀ f ∈ fs, dictGet cfg1 f.name = get_selected_column (combo_of f)) ∧
        (∀ k, k ∉ fs.map FieldDescriptor.name →
          dictGet cfg1 k = dictGet config k)
  | [], _, config, _, _ => ⟨config, rfl, by simp, fun _ _ => rfl⟩
  | f :: rest, combo_of, config, hnd, hall => by
      simp only [List.map_cons, List.nodup_cons] at hnd
      have hf := hall f (List.mem_cons_self f rest)
      rcases Option.isSome_iff_exists.mp hf with ⟨v, hv⟩
      obtain ⟨cfg1, h1, h2, h3⟩ :=
        save_loop_spec rest combo_of (dictInsert f.name v config) hnd.2
          (fun g hg => hall g (List.mem_cons_of_mem f hg))
      refine ⟨cfg1, ?_, ?_, ?_⟩
      · simp [save_loop, hv, h1]
      · intro g hg
        rcases List.mem_cons.mp hg with rfl | hg
        · rw [h3 g.name hnd.1, dictGet_dictInsert_same, hv]
        · exact h2 g hg
      · intro k hk
        simp only [List.map_cons, List.mem_cons] at hk
        push_neg at hk
        rw [h3 k hk.2, dictGet_dictInsert_ne f.name k v hk.1 config]

theorem COLUMNS_names_nodup :
    (COLUMNS.map FieldDescriptor.name).Nodup := by decide

/-! ### Claim theorems -/

/-- C6: the transform of the `column_percent_read_int` field returns
`floor(float(v) * 100)` for every raw percent-finished value `v`, a 0-100
integer for `v` in the unit interval; input `0.73` yields `73` and `0.999`
yields `99` (floor, not round). -/
theorem percent_read_int_transform_spec :
    (∀ v : ℚ, column_percent_read_int_transform v = ⌊v * 100⌋)
    ∧ (∀ v : ℚ, 0 ≤ v → v ≤ 1 →
        0 ≤ column_percent_read_int_transform v
        ∧ column_percent_read_int_transform v ≤ 100)
    ∧ column_percent_read_int_transform (73 / 100) = 73
    ∧ column_percent_read_int_transform (999 / 1000) = 99 := by
  refine ⟨fun v => rfl, fun v h0 h1 => ⟨?_, ?_⟩, ?_, ?_⟩
  · exact Int.le_floor.mpr (by push_cast; nlinarith)
  · have hv : v * 100 ≤ 100 := by nlinarith
    calc ⌊v * 100⌋ ≤ ⌊(100 : ℚ)⌋ := Int.floor_le_floor hv
      _ = 100 := by norm_num
  · norm_num [column_percent_read_int_transform]
  · norm_num [column_percent_read_int_transform]

/-- Witness for C6 at the concrete input 1/2. -/
theorem percent_read_int_transform_spec_witness :
    0 ≤ column_percent_read_int_transform (1 / 2)
    ∧ column_percent_read_int_transform (1 / 2) ≤ 100 :=
  percent_read_int_transform_spec.2.1 (1 / 2) (by norm_num) (by norm_num)

/-- C8: the transform of the `column_rating` field doubles the source's
5-point rating onto the host's 10-point scale; input 4 yields 8. -/
theorem rating_transform_spec :
    (∀ v : ℚ, column_rating_transform v = v * 2)
    ∧ column_rating_transform 4 = 8 :=
  ⟨fun _ => rfl, by norm_num [column_rating_transform]⟩

/-- C7: the transform of the `column_sidecar` field serializes the whole
source document as 2-space-indented JSON; the document with one member
`"a": 1` yields exactly the expected three-line string. -/
theorem sidecar_transform_spec :
    (∀ d : Json, column_sidecar_transform d = json_dumps_indent2 d)
    ∧ column_sidecar_transform (Json.obj [("a", Json.int 1)]) =
        "\x7b\n  \"a\": 1\n\x7d" :=
  ⟨fun _ => rfl, rfl⟩

/-- C5: `get_rating_columns` is the non-multi-valued custom rating columns
unioned with one synthesized entry under key `rating` for the host's
built-in rating column; the key `rating` is always present, exactly once,
and it holds the built-in entry even when a custom column is keyed
`rating`. -/
theorem rating_bucket_spec :
    (∀ (cc : Dict CustomColumn) (nm : String),
        dictGet (get_rating_columns cc nm) "rating" =
          some (ColEntry.builtinRating nm))
    ∧ (∀ (cc : Dict CustomColumn) (nm : String),
        (dictKeys (get_rating_columns cc nm)).count "rating" = 1)
    ∧ (∀ (cc : Dict CustomColumn) (nm k : String), k ≠ "rating" →
        dictGet (get_rating_columns cc nm) k =
          (dictGet (get_custom_columns cc ["rating"]) k).map
            ColEntry.custom) := by
  refine ⟨fun cc nm => ?_, fun cc nm => ?_, fun cc nm k hk => ?_⟩
  · exact dictGet_dictInsert_same "rating" (ColEntry.builtinRating nm) _
  · have hnd : (dictKeys (toEntries (get_custom_columns cc ["rating"]))).Nodup := by
      rw [dictKeys_toEntries]
      exact get_custom_columns_keys_nodup cc ["rating"]
    have hnd2 := nodup_dictKeys_dictInsert "rating"
      (ColEntry.builtinRating nm) _ hnd
    exact List.count_eq_one_of_mem hnd2
      (mem_dictKeys_dictInsert "rating" (ColEntry.builtinRating nm) _)
  · rw [get_rating_columns,
      dictGet_dictInsert_ne "rating" k (ColEntry.builtinRating nm) hk,
      dictGet_toEntries]

/-- Witness for C5 at a concrete key different from `rating`. -/
theorem rating_bucket_spec_witness :
    dictGet (get_rating_columns [] "Rating") "x" =
      (dictGet (get_custom_columns [] ["rating"]) "x").map
        ColEntry.custom :=
  rating_bucket_spec.2.2 [] "Rating" "x" (by decide)

/-- C4: `get_custom_columns` returns exactly the columns whose data type is
among the requested types and whose is-multiple flag is false, so a
multi-valued column of matching type never reaches any option list. -/
theorem multi_valued_exclusion
    (cc : Dict CustomColumn) (column_types : List String) (s : String)
    (hnd : (dictKeys cc).Nodup) :
    (∀ k c, (k, c) ∈ get_custom_columns cc column_types ↔
        ((k, c) ∈ cc ∧ c.datatype ∈ column_types ∧ c.is_multiple = false))
    ∧ (∀ k c, (k, c) ∈ cc → c.is_multiple = true →
        k ∉ dictKeys (get_custom_columns cc column_types))
    ∧ (∀ k c, (k, c) ∈ cc → c.is_multiple = true →
        k ∉ (populate_combo (toEntries (get_custom_columns cc column_types))
              s).column_names.drop 1) := by
  have hfil := get_custom_columns_eq_filter cc column_types hnd
  have hmem : ∀ k c, (k, c) ∈ get_custom_columns cc column_types ↔
      ((k, c) ∈ cc ∧ c.datatype ∈ column_types ∧ c.is_multiple = false) := by
    intro k c
    rw [hfil, List.mem_filter]
    simp [eligible, List.contains_iff_exists_mem_beq]
  have hex : ∀ k c, (k, c) ∈ cc → c.is_multiple = true →
      k ∉ dictKeys (get_custom_columns cc column_types) := by
    intro k c hkc hmul hin
    simp only [dictKeys, List.mem_map] at hin
    obtain ⟨⟨k1, c1⟩, hk1, he⟩ := hin
    have hk1c : (k, c1) ∈ get_custom_columns cc column_types := he ▸ hk1
    have h1 := (hmem k c1).mp hk1c
    have : c1 = c := dict_mem_unique cc hnd k c1 c h1.1 hkc
    rw [this] at h1
    rw [hmul] at h1
    exact absurd h1.2.2 (by simp)
  refine ⟨hmem, hex, fun k c hkc hmul hin => ?_⟩
  have hcn := populate_fold_column_names s
    (sortPairs (toEntries (get_custom_columns cc column_types)))
    { items := ["do not sync"], column_names := [""], currentIndex := 0 }
  rw [populate_combo] at hin
  rw [hcn] at hin
  simp only [List.singleton_append, List.drop_succ_cons, List.drop_zero] at hin
  have hkm : k ∈ dictKeys (toEntries (get_custom_columns cc column_types)) :=
    (sortPairs_keys_perm _).mem_iff.mp hin
  rw [dictKeys_toEntries] at hkm
  exact hex k c hkc hmul hkm

/-- Witness for C4 at a concrete one-column registry holding a multi-valued
text column. -/
theorem multi_valued_exclusion_witness :
    "x" ∉ dictKeys (get_custom_columns
      [("x", CustomColumn.mk "text" true "X")] ["text"]) :=
  (multi_valued_exclusion [("x", CustomColumn.mk "text" true "X")] ["text"]
    "" (by decide)).2.1 "x" (CustomColumn.mk "text" true "X") (by decide) rfl

/-- C3: `populate_combo` produces the internal key list `''` followed by the
mapping's keys sorted ascending, one `do not sync` option first, and one
option per column displayed as `displayName (key)`. -/
theorem option_list_shape (M : Dict ColEntry) (s : String) :
    (populate_combo M s).column_names = "" :: dictKeys (sortPairs M)
    ∧ List.Sorted (fun a b => strLe a b = true) (dictKeys (sortPairs M))
    ∧ (dictKeys (sortPairs M)).Perm (dictKeys M)
    ∧ (populate_combo M s).items =
        "do not sync" ::
          (sortPairs M).map (fun kv => display_name kv.1 kv.2)
    ∧ (populate_combo M s).items.count "do not sync" = 1 := by
  have hcn := populate_fold_column_names s (sortPairs M)
    { items := ["do not sync"], column_names := [""], currentIndex := 0 }
  have hit := populate_fold_items s (sortPairs M)
    { items := ["do not sync"], column_names := [""], currentIndex := 0 }
  simp only [List.singleton_append] at hcn hit
  refine ⟨?_, sortPairs_keys_sorted M, sortPairs_keys_perm M, ?_, ?_⟩
  · rw [populate_combo, hcn]
  · rw [populate_combo, hit]
  · rw [populate_combo, hit, List.count_cons]
    have hz : List.count "do not sync"
        ((sortPairs M).map (fun kv => display_name kv.1 kv.2)) = 0 := by
      rw [List.count_eq_zero]
      intro hm
      simp only [List.mem_map] at hm
      obtain ⟨kv, _, he⟩ := hm
      exact display_name_ne_do_not_sync kv.1 kv.2 he
    rw [hz]
    simp

/-- C2: when the persisted selection is absent from the available columns,
`populate_combo` selects index 0, the `do not sync` option at internal key
`''`, and the combo read succeeds. -/
theorem stale_key_fallback (M : Dict ColEntry) (S : String)
    (h : S ∉ dictKeys M) :
    (populate_combo M S).currentIndex = 0
    ∧ get_selected_column (populate_combo M S) = some "" := by
  have hni : ∀ kv ∈ sortPairs M, kv.1 ≠ S := by
    intro kv hkv he
    have : kv ∈ M := (sortPairs_perm M).mem_iff.mp hkv
    exact h (he ▸ List.mem_map_of_mem Prod.fst this)
  have hidx : (populate_combo M S).currentIndex = 0 :=
    populate_fold_currentIndex_of_not_mem S (sortPairs M) _ hni
  have hcn := populate_fold_column_names S (sortPairs M)
    { items := ["do not sync"], column_names := [""], currentIndex := 0 }
  simp only [List.singleton_append] at hcn
  refine ⟨hidx, ?_⟩
  rw [get_selected_column, hidx, populate_combo, hcn]
  simp

/-- Witness for C2 with one available column and a stale persisted key. -/
theorem stale_key_fallback_witness :
    (populate_combo [("aa", ColEntry.builtinRating "A")] "zz").currentIndex = 0
    ∧ get_selected_column
        (populate_combo [("aa", ColEntry.builtinRating "A")] "zz") =
      some "" :=
  stale_key_fallback [("aa", ColEntry.builtinRating "A")] "zz" (by decide)

/-- C9: `save_settings` writes every registry field's currently selected
key into the config under the field's name and leaves every non-field
config entry unchanged. -/
theorem save_settings_overwrite (combo_of : FieldDescriptor → ComboState)
    (config : Dict String)
    (hall : ∀ f ∈ COLUMNS, (get_selected_column (combo_of f)).isSome = true) :
    ∃ cfg1, save_settings combo_of config = some cfg1
      ∧ (∀ f ∈ COLUMNS,
          dictGet cfg1 f.name = get_selected_column (combo_of f))
      ∧ (∀ k, k ∉ COLUMNS.map FieldDescriptor.name →
          dictGet cfg1 k = dictGet config k) :=
  save_loop_spec COLUMNS combo_of config COLUMNS_names_nodup hall

/-- Witness for C9: all combos on an empty column mapping, a config holding
one foreign key. -/
theorem save_settings_overwrite_witness :
    ∃ cfg1, save_settings (fun _ => populate_combo [] "")
        [("other", "v")] = some cfg1
      ∧ (∀ f ∈ COLUMNS, dictGet cfg1 f.name =
          get_selected_column (populate_combo [] ""))
      ∧ (∀ k, k ∉ COLUMNS.map FieldDescriptor.name →
          dictGet cfg1 k = dictGet [("other", "v")] k) := by
  refine save_settings_overwrite (fun _ => populate_combo [] "")
    [("other", "v")] (fun f hf => ?_)
  show (get_selected_column (populate_combo [] "")).isSome = true
  decide

/-- C1: selecting the option with key `K` in a field's control and saving
writes `K` under the field's name, and re-populating the control with the
same available columns and the persisted value `K` pre-selects the option
whose key is `K`. -/
theorem round_trip_selection (f : FieldDescriptor) (hf : f ∈ COLUMNS)
    (M : Dict ColEntry) (hnd : (dictKeys M).Nodup)
    (K : String) (hK : K ∈ dictKeys M)
    (combo_of : FieldDescriptor → ComboState) (config : Dict String)
    (hall : ∀ g ∈ COLUMNS, (get_selected_column (combo_of g)).isSome = true)
    (hsel : get_selected_column (combo_of f) = some K) :
    ∃ cfg1, save_settings combo_of config = some cfg1
      ∧ dictGet cfg1 f.name = some K
      ∧ get_selected_column (populate_combo M K) = some K := by
  obtain ⟨cfg1, h1, h2, h3⟩ :=
    save_loop_spec COLUMNS combo_of config COLUMNS_names_nodup hall
  refine ⟨cfg1, h1, ?_, ?_⟩
  · rw [h2 f hf, hsel]
  · rw [get_selected_column, populate_combo]
    exact populate_fold_select K (sortPairs M) _
      (sortPairs_keys_nodup M hnd) ((sortPairs_keys_perm M).mem_iff.mpr hK)

/-- Witness for C1: the percent-read field, one available column keyed
`aa`, every combo populated from that mapping with `aa` selected. -/
theorem round_trip_selection_witness :
    ∃ cfg1, save_settings
        (fun _ => populate_combo [("aa", ColEntry.builtinRating "A")] "aa")
        [] = some cfg1
      ∧ dictGet cfg1 (FieldDescriptor.mk "column_percent_read"
          "Percent read column (float):" "float" ["percent_finished"]).name =
        some "aa"
      ∧ get_selected_column
          (populate_combo [("aa", ColEntry.builtinRating "A")] "aa") =
        some "aa" := by
  refine round_trip_selection
    (FieldDescriptor.mk "column_percent_read"
      "Percent read column (float):" "float" ["percent_finished"])
    (by decide) [("aa", ColEntry.builtinRating "A")] (by decide) "aa"
    (by decide)
    (fun _ => populate_combo [("aa", ColEntry.builtinRating "A")] "aa") []
    (fun g hg => ?_) (by decide)
  show (get_selected_column
    (populate_combo [("aa", ColEntry.builtinRating "A")] "aa")).isSome = true
  decide

/-- C10: after `populate_combo`, the internal key list has one entry per
option with `''` first, the set index is valid, any valid current index
reads back either `''` or an available key, and hence every value
`save_settings` writes is `''` or a key that was available at populate
time. -/
theorem combo_closure_invariant :
    (∀ (M : Dict ColEntry) (s : String),
        (populate_combo M s).column_names.length =
          (populate_combo M s).items.length
        ∧ (populate_combo M s).column_names[0]? = some ""
        ∧ (populate_combo M s).currentIndex <
            (populate_combo M s).column_names.length)
    ∧ (∀ (M : Dict ColEntry) (s : String) (i : Nat),
        i < (populate_combo M s).column_names.length →
        ∃ v, get_selected_column (setCurrentIndex (populate_combo M s) i) =
            some v
          ∧ (v = "" ∨ v ∈ dictKeys M))
    ∧ (∀ (M_of : FieldDescriptor → Dict ColEntry)
        (s_of : FieldDescriptor → String)
        (i_of : FieldDescriptor → Nat) (config : Dict String),
        (∀ f ∈ COLUMNS, i_of f <
          (populate_combo (M_of f) (s_of f)).column_names.length) →
        ∃ cfg1, save_settings
            (fun f => setCurrentIndex
              (populate_combo (M_of f) (s_of f)) (i_of f)) config =
            some cfg1
          ∧ ∀ f ∈ COLUMNS, ∃ v, dictGet cfg1 f.name = some v
              ∧ (v = "" ∨ v ∈ dictKeys (M_of f))) := by
  have hbase : ∀ (M : Dict ColEntry) (s : String),
      (populate_combo M s).column_names = "" :: dictKeys (sortPairs M) := by
    intro M s
    have hcn := populate_fold_column_names s (sortPairs M)
      { items := ["do not sync"], column_names := [""], currentIndex := 0 }
    simp only [List.singleton_append] at hcn
    rw [populate_combo, hcn]
  have hsnd : ∀ (M : Dict ColEntry) (s : String) (i : Nat),
      i < (populate_combo M s).column_names.length →
      ∃ v, get_selected_column (setCurrentIndex (populate_combo M s) i) =
          some v ∧ (v = "" ∨ v ∈ dictKeys M) := by
    intro M s i hi
    rw [hbase M s] at hi
    obtain ⟨v, hv⟩ : ∃ v, ("" :: dictKeys (sortPairs M))[i]? = some v :=
      ⟨_, List.getElem?_eq_getElem hi⟩
    refine ⟨v, ?_, ?_⟩
    · show (populate_combo M s).column_names[i]? = some v
      rw [hbase M s]
      exact hv
    · have hm : v ∈ ("" :: dictKeys (sortPairs M)) := List.getElem?_mem hv
      rcases List.mem_cons.mp hm with he | hm2
      · exact Or.inl he
      · exact Or.inr ((sortPairs_keys_perm M).mem_iff.mp hm2)
  refine ⟨fun M s => ⟨?_, ?_, ?_⟩, hsnd, ?_⟩
  · have hit := populate_fold_items s (sortPairs M)
      { items := ["do not sync"], column_names := [""], currentIndex := 0 }
    simp only [List.singleton_append] at hit
    rw [hbase M s, populate_combo, hit]
    simp [dictKeys]
  · rw [hbase M s]
    simp
  · rw [populate_combo]
    exact populate_fold_currentIndex_lt s (sortPairs M) _ (by simp)
  · intro M_of s_of i_of config hvalid
    have hall : ∀ f ∈ COLUMNS,
        (get_selected_column
          (setCurrentIndex (populate_combo (M_of f) (s_of f))
            (i_of f))).isSome = true := by
      intro f hf
      obtain ⟨v, hv, _⟩ := hsnd (M_of f) (s_of f) (i_of f) (hvalid f hf)
      rw [hv]
      rfl
    obtain ⟨cfg1, h1, h2, _⟩ :=
      save_loop_spec COLUMNS _ config COLUMNS_names_nodup hall
    refine ⟨cfg1, h1, fun f hf => ?_⟩
    obtain ⟨v, hv, hprop⟩ := hsnd (M_of f) (s_of f) (i_of f) (hvalid f hf)
    exact ⟨v, by rw [h2 f hf, hv], hprop⟩

/-- Witness for C10: index 1 of a combo populated from a one-column
mapping reads back the available key. -/
theorem combo_closure_invariant_witness :
    ∃ v, get_selected_column
        (setCurrentIndex
          (populate_combo [("aa", ColEntry.builtinRating "A")] "") 1) =
        some v
      ∧ (v = "" ∨ v ∈ dictKeys [("aa", ColEntry.builtinRating "A")]) :=
  combo_closure_invariant.2.1 [("aa", ColEntry.builtinRating "A")] "" 1
    (by decide)
